import Mathlib

set_option maxHeartbeats 1000000

/-! Verification of the FLT (Font Layout Table) engine of the m17n library,
embedded shallowly from src/m17n-flt.c.  Glyph buffers are modelled as lists
whose length is the C field `used`, together with an `allocated` capacity;
machine integers are Nat/Int.  External collaborators (the font adapter, the
POSIX regex engine, the chartable module of the core library) are modelled as
oracle functions collected in an environment record, since their code is not
part of this repository. -/

/-- Shallow embedding of MFLTGlyph.  The packed `internal` word is represented
by its three components (combining code, left-padding flag, right-padding
flag); all other fields follow the C struct. -/
structure MFLTGlyph where
  c : Int := 0
  code : Nat := 0
  frm : Nat := 0
  tto : Nat := 0
  xadv : Int := 0
  yadv : Int := 0
  xoff : Int := 0
  yoff : Int := 0
  lbearing : Int := 0
  rbearing : Int := 0
  ascent : Int := 0
  descent : Int := 0
  encoded : Bool := false
  measured : Bool := false
  combiningCode : Nat := 0
  leftPad : Bool := false
  rightPad : Bool := false
deriving DecidableEq

instance : Inhabited MFLTGlyph := ⟨{}⟩

/-- Shallow embedding of MFLTGlyphString: a glyph buffer with capacity
`allocated`; the C field `used` is the length of the glyph list. -/
structure MFLTGlyphString where
  glyphs : List MFLTGlyph := []
  allocated : Nat := 0
deriving DecidableEq

def MFLTGlyphString.used (g : MFLTGlyphString) : Nat := g.glyphs.length

instance : Inhabited MFLTGlyphString := ⟨{}⟩

/-- Shallow embedding of MFLTGlyphAdjustment (per-glyph adjustment record
filled by the font adapter when driving OTF features). -/
structure MFLTGlyphAdjustment where
  xadv : Int := 0
  yadv : Int := 0
  xoff : Int := 0
  yoff : Int := 0
  back : Nat := 0
  advance_is_absolute : Bool := false
  set : Bool := false
deriving DecidableEq

instance : Inhabited MFLTGlyphAdjustment := ⟨{}⟩

/-- Shallow embedding of MFLTOtfSpec.  A feature array, when allocated, is a
nonempty list of tags; the entry 0xFFFFFFFF is the wildcard marker. -/
structure MFLTOtfSpec where
  script : Nat := 0
  langsys : Nat := 0
  features0 : Option (List Nat) := none
  features1 : Option (List Nat) := none
deriving DecidableEq

/-- Source matcher of a FontLayoutCmdRule (enum FontLayoutCmdRuleSrcType plus
its union payload). -/
inductive FLTRuleSrc where
  | regex (pattern : List Char)
  | matchIdx (idx : Nat)
  | seq (codes : List Nat)
  | range (rfrom rto : Nat)
  | hasGlyph (code : Option Nat)
  | otfSpec (spec : MFLTOtfSpec)
deriving DecidableEq

/-- FontLayoutCmdRule: a source matcher plus the ordered sub-command ids. -/
structure FontLayoutCmdRule where
  src : FLTRuleSrc
  cmd_ids : List Int
deriving DecidableEq

/-- FontLayoutCmdCond: ordered alternative command ids.  The seq_beg/seq_end
optimization hints are omitted: the interpreter never reads them (the C code
carries a TODO saying the optimization is unwritten). -/
structure FontLayoutCmdCond where
  cmd_ids : List Int
deriving DecidableEq

/-- FontLayoutCmd: the tagged command union.  typeMAX is the dummy type used
for not-yet-loaded slots. -/
inductive FontLayoutCmd where
  | rule (r : FontLayoutCmdRule)
  | cond (c : FontLayoutCmdCond)
  | otf (spec : MFLTOtfSpec)
  | typeMAX
deriving DecidableEq

/-- FontLayoutStage: the command array of one stage (the category table is
consulted only by run_stages, which encodes the input before interpretation;
the interpreter itself reads the context's encoded buffer). -/
structure FontLayoutStage where
  cmds : List FontLayoutCmd := []
deriving DecidableEq

def FontLayoutStage.used (s : FontLayoutStage) : Nat := s.cmds.length

/-- Command id constants from m17n-flt.c. -/
def INVALID_CMD_ID : Int := -1

def CMD_ID_OFFSET_COMBINING : Int := -0x10

def CMD_ID_OFFSET_INDEX : Int := -0x1000010

def CMD_ID_COPY : Int := -3

def CMD_ID_REPEAT : Int := -4

def CMD_ID_CLUSTER_BEGIN : Int := -5

def CMD_ID_CLUSTER_END : Int := -6

def CMD_ID_SEPARATOR : Int := -7

def CMD_ID_LEFT_PADDING : Int := -8

def CMD_ID_RIGHT_PADDING : Int := -9

def CMD_ID_TO_INDEX (id : Int) : Nat := (CMD_ID_OFFSET_INDEX - id).toNat

def INDEX_TO_CMD_ID (idx : Nat) : Int := CMD_ID_OFFSET_INDEX - idx

def CMD_ID_TO_COMBINING_CODE (id : Int) : Nat := (CMD_ID_OFFSET_COMBINING - id).toNat

def NMATCH : Nat := 20

/-- GlyphInfoMask constants. -/
def CombiningCodeMask : Nat := 0xFFFFFFF

def LeftPaddingMask : Nat := 0x10000000

def RightPaddingMask : Nat := 0x20000000

/-- FontLayoutContext: the per-run interpreter state (the font pointer lives
in the separate oracle environment FLTFontEnv). -/
structure FontLayoutContext where
  stage : FontLayoutStage := {}
  inG : MFLTGlyphString := {}
  out : MFLTGlyphString := {}
  encoded : List Char := []
  match_indices : List Int := []
  code_offset : Nat := 0
  cluster_begin_idx : Int := -1
  cluster_begin_pos : Nat := 0
  cluster_end_pos : Nat := 0
  combining_code : Nat := 0
  left_padding : Bool := false
  check_mask : Nat := 0
deriving DecidableEq

instance : Inhabited FontLayoutContext := ⟨{}⟩

/-- Oracle environment: the font adapter callbacks (get_glyph_id and
get_metrics act per glyph), the optional OTF driver, and the POSIX regexec
call, all external to this repository.  drive_otf receives (spec, input
string, from, to, output string) and returns (new to, new output string,
adjustment array); regexec receives (pattern, subject) and returns the match
array (rm_so, rm_eo pairs, relative positions, None for an unset group). -/
structure FLTFontEnv where
  family : Option String := none
  x_ppem : Nat := 0
  y_ppem : Nat := 0
  get_glyph_id : MFLTGlyph → MFLTGlyph := fun g => g
  get_metrics : MFLTGlyph → MFLTGlyph := fun g => g
  has_glyph : Nat → Bool := fun _ => false
  check_otf : Option (MFLTOtfSpec → Bool) := none
  drive_otf : Option (MFLTOtfSpec → MFLTGlyphString → Nat → Nat → MFLTGlyphString →
    Int × MFLTGlyphString × List MFLTGlyphAdjustment) := none
  regexec : List Char → List Char → Option (List (Option (Nat × Nat))) := fun _ _ => none

/-- GDUP: copy the glyph of ctx.in at idx to the end of ctx.out; none models
the -2 capacity signal returned when the output buffer is full. -/
def GDUP (ctx : FontLayoutContext) (idx : Nat) : Option FontLayoutContext :=
  if ctx.out.allocated ≤ ctx.out.used then none
  else some { ctx with
    out := { ctx.out with glyphs := ctx.out.glyphs ++ [ctx.inG.glyphs.getD idx default] } }

/-- GREPLACE: replace tgt[tgt_from, tgt_to) by src[src_from, src_to); none
models the -2 capacity signal. -/
def GREPLACE (src : MFLTGlyphString) (src_from src_to : Nat)
    (tgt : MFLTGlyphString) (tgt_from tgt_to : Nat) : Option MFLTGlyphString :=
  let src_len : Int := (src_to : Int) - (src_from : Int)
  let tgt_len : Int := (tgt_to : Int) - (tgt_from : Int)
  let inc : Int := src_len - tgt_len
  if (tgt.allocated : Int) < (tgt.used : Int) + inc then none
  else
    let gl := tgt.glyphs.take tgt_from
      ++ ((src.glyphs.drop src_from).take (src_to - src_from))
      ++ tgt.glyphs.drop tgt_to
    some { tgt with glyphs := gl }

/-- UPDATE_CLUSTER_RANGE: widen the open cluster bounds with the span of g. -/
def UPDATE_CLUSTER_RANGE (ctx : FontLayoutContext) (g : MFLTGlyph) : FontLayoutContext :=
  if 0 ≤ ctx.cluster_begin_idx then
    { ctx with
      cluster_begin_pos := if g.frm < ctx.cluster_begin_pos then g.frm else ctx.cluster_begin_pos,
      cluster_end_pos := if ctx.cluster_end_pos < g.tto then g.tto else ctx.cluster_end_pos }
  else ctx

/-- The digit loop of read_decimal_number: the value of the decimal digits
following the sign character. -/
def decimal_digits_value (s : List Char) : Nat :=
  ((s.drop 1).takeWhile (fun ch => decide (('0' : Char) ≤ ch ∧ ch ≤ ('9' : Char)))).foldl
    (fun n ch => n * 10 + (ch.toNat - ('0' : Char).toNat)) 0

/-- read_decimal_number from m17n-flt.c: a decimal number preceded by one of
the sign characters (minus for a leading hyphen or less-than sign); a zero
value becomes 5 and values of 127 or more are limited to 127.  Returns the
signed value and the rest of the string. -/
def read_decimal_number (s : List Char) : Int × List Char :=
  let sign : Int := if s.headD ' ' = '-' ∨ s.headD ' ' = '<' then -1 else 1
  let n0 := decimal_digits_value s
  let p := (s.drop 1).dropWhile (fun ch => decide (('0' : Char) ≤ ch ∧ ch ≤ ('9' : Char)))
  let n : Nat := if n0 = 0 then 5 else n0
  (if n < 127 then (n : Int) * sign else 127 * sign, p)

/-- The retry loop of mflt_run, lines 2468..2484 of m17n-flt.c, with the call
to run_stages abstracted into the oracle f from the allocation size (the only
datum that differs between attempts: the context is re-initialised and the
scratch output buffer rebuilt by run_stages on every attempt, and the caller
glyph buffer is only written back on success).  The counter is the number of
loop iterations still allowed; when it reaches 0 the last result was the -2
capacity signal and mflt_run returns it. -/
def run_stages_retry (f : Nat → Int) : Nat → Nat → Int
  | 0, _ => -2
  | n + 1, alloc => if f alloc = -2 then run_stages_retry f n (alloc * 2) else f alloc

/-- The retry protocol of mflt_run: at most 3 attempts (for-loop bound 3),
doubling the allocation after each capacity failure. -/
def mflt_run_retry (f : Nat → Int) (alloc : Nat) : Int := run_stages_retry f 3 alloc

/-- Modelled from the spec: the retry protocol as claim C3 words it, namely an
initial attempt followed by up to 3 retries (4 attempts in total), doubling
the allocation before each retry.  Used only to exhibit the divergence from
the code, whose loop bound is 3 attempts. -/
def mflt_run_retry_claim (f : Nat → Int) (alloc : Nat) : Int := run_stages_retry f 4 alloc

/-- C10: in the combining-placement offset parser, digits that evaluate to
zero (or absent digits) give magnitude 5, a value of 127 or more is clamped
to 127, and consequently every parsed magnitude lies in 1..127 and is never
0; concretely the strings "+0" and "<0" parse to +5 and -5. -/
theorem C10_read_decimal_number_magnitude (s : List Char) :
    ((read_decimal_number s).1.natAbs
        = (if decimal_digits_value s = 0 then 5
           else if decimal_digits_value s < 127 then decimal_digits_value s else 127))
    ∧ 1 ≤ (read_decimal_number s).1.natAbs
    ∧ (read_decimal_number s).1.natAbs ≤ 127
    ∧ (read_decimal_number ['+', '0']).1 = 5
    ∧ (read_decimal_number ['<', '0']).1 = -5 := by
  refine ⟨?_, ?_, ?_, by decide, by decide⟩ <;>
  · unfold read_decimal_number
    rcases h : decide ((s.headD ' ' = '-' ∨ s.headD ' ' = '<')) with _ | _ <;>
      simp only [decide_eq_true_eq, decide_eq_false_iff_not] at h <;>
      simp only [h, if_true, if_false] <;>
      split_ifs <;>
      simp [Int.natAbs_mul] <;>
      omega

/-- The subject string that regexec sees in run_rule for SRC_REGEX: the
encoded category buffer starting at frm, NUL-terminated at position to by the
saved-character trick (an interior NUL also ends the C string). -/
def regexInput (ctx : FontLayoutContext) (frm til : Nat) : List Char :=
  ((ctx.encoded.drop frm).take (til - frm)).takeWhile (fun ch => ch ≠ Char.ofNat 0)

/-- The capture-storing loop of run_rule for SRC_REGEX, filling slots i and
i+1 for every group: an unset group stores the pair (-1, -1), a set group
stores the match offsets made absolute by adding frm.  The first argument of
the recursion is the group index, the second the number of groups left. -/
def storeMIFrom (frm : Nat) (pm : List (Option (Nat × Nat))) : Nat → Nat → List Int
  | _, 0 => []
  | i, n + 1 =>
    match pm.getD i none with
    | none => -1 :: -1 :: storeMIFrom frm pm (i + 1) n
    | some (so, eo) =>
        ((frm + so : Nat) : Int) :: ((frm + eo : Nat) : Int) :: storeMIFrom frm pm (i + 1) n

/-- All NMATCH capture slots of run_rule for SRC_REGEX. -/
def storeMatchIndices (frm : Nat) (pm : List (Option (Nat × Nat))) : List Int :=
  storeMIFrom frm pm 0 NMATCH

/-- The check a SRC_OTF_SPEC probe performs on a feature array when the font
has no check_otf callback: the array requires concrete features when it is
allocated and its first tag is not the wildcard 0xFFFFFFFF. -/
def featuresConcrete (o : Option (List Nat)) : Bool :=
  match o with
  | none => false
  | some fs => fs.headD 0 != 0xFFFFFFFF

/-- The source-matching phase of run_rule (the first big if/else chain):
returns none for the no-match result 0, or the narrowed range together with
the updated context (code_offset for SRC_RANGE, match_indices for SRC_REGEX).
The sub-command loop and the restoration of match_indices are in run_rule. -/
def ruleMatchPhase (env : FLTFontEnv) (src : FLTRuleSrc) (frm til : Nat)
    (ctx : FontLayoutContext) : Option (Nat × Nat × FontLayoutContext) :=
  match src with
  | .seq codes =>
      if ((codes.length : Int) > (til : Int) - (frm : Int)) then none
      else if (List.range codes.length).all
          (fun i => codes.getD i 0 == (ctx.inG.glyphs.getD (frm + i) default).code) then
        some (frm, frm + codes.length, ctx)
      else none
  | .range lo hi =>
      if til ≤ frm then none
      else
        let head := (ctx.inG.glyphs.getD frm default).code
        if head < lo ∨ hi < head then none
        else some (frm, frm + 1, { ctx with code_offset := head - lo })
  | .regex pat =>
      if til < frm then none
      else
        match env.regexec pat (regexInput ctx frm til) with
        | none => none
        | some pm =>
            match pm.getD 0 none with
            | some (0, _) =>
                let mi := storeMatchIndices frm pm
                some (frm, (mi.getD 1 0).toNat, { ctx with match_indices := mi })
            | _ => none
  | .matchIdx k =>
      if NMATCH ≤ k then none
      else
        let f := ctx.match_indices.getD (k * 2) (-1)
        if f < 0 then none
        else some (f.toNat, (ctx.match_indices.getD (k * 2 + 1) (-1)).toNat, ctx)
  | .hasGlyph sg =>
      match sg with
      | none =>
          if til ≤ frm then none
          else
            let g := ctx.inG.glyphs.getD frm default
            if g.encoded then some (frm, frm + 1, ctx)
            else if env.has_glyph g.code then some (frm, frm + 1, ctx)
            else none
      | some code =>
          if env.has_glyph code then some (frm, frm, ctx) else none
  | .otfSpec spec =>
      match env.check_otf with
      | none =>
          if featuresConcrete spec.features0 || featuresConcrete spec.features1 then none
          else some (frm, til, ctx)
      | some chk => if chk spec then some (frm, til, ctx) else none

/-- Type of the command interpreter at one recursion depth below. -/
abbrev RunCmd := Int → Nat → Nat → FontLayoutContext → Int × FontLayoutContext

/-- Outcome of the sub-command loop of run_rule: err is an early return with
the negative result of a sub-command, ok is loop completion. -/
inductive SubRes where
  | err : Int → FontLayoutContext → SubRes
  | ok : FontLayoutContext → SubRes
deriving DecidableEq

/-- The sub-command loop of run_rule (lines 1542..1560): index i walks the
id list, CMD_ID_REPEAT steps back to re-run the previous command while it
consumes input; consumed and frm are threaded exactly as in the C loop.  The
first Nat is fuel bounding the number of loop iterations. -/
def runSubCmds (rc : RunCmd) : Nat → List Int → Nat → Nat → Nat → Bool →
    FontLayoutContext → SubRes
  | 0, _, _, _, _, _, ctx => .err (-1) ctx
  | fuel + 1, ids, i, frm, til, consumed, ctx =>
    if i < ids.length then
      if ids.getD i 0 = CMD_ID_REPEAT ∧ consumed = false then
        runSubCmds rc fuel ids (i + 1) frm til consumed ctx
      else
        let i2 := if ids.getD i 0 = CMD_ID_REPEAT then i - 1 else i
        let r := rc (ids.getD i2 0) frm til ctx
        if r.1 < 0 then .err r.1 r.2
        else
          let consumed2 := decide ((frm : Int) < r.1)
          let frm2 := if (frm : Int) < r.1 then r.1.toNat else frm
          runSubCmds rc fuel ids (i2 + 1) frm2 til consumed2 r.2
    else .ok ctx

/-- run_rule: source match phase, then the sub-command loop over the narrowed
range, then restoration of the caller's match_indices (executed only when the
loop completes: an error from a sub-command returns immediately, as in the C).
The result is orig_from for SRC_INDEX and the narrowed to otherwise. -/
def run_rule (env : FLTFontEnv) (rc : RunCmd) (fuel : Nat) (rule : FontLayoutCmdRule)
    (frm til : Nat) (ctx : FontLayoutContext) : Int × FontLayoutContext :=
  match ruleMatchPhase env rule.src frm til ctx with
  | none => (0, ctx)
  | some (frm2, to2, ctx2) =>
      match runSubCmds rc fuel rule.cmd_ids 0 frm2 to2 false ctx2 with
      | .err e c => (e, c)
      | .ok c =>
          match rule.src with
          | .matchIdx _ => ((frm : Int), { c with match_indices := ctx.match_indices })
          | _ => ((to2 : Int), { c with match_indices := ctx.match_indices })

/-- run_cond: try the alternatives in order; the first nonzero result (also a
negative error) is the result, 0 if every alternative returns 0. -/
def run_cond (rc : RunCmd) : List Int → Nat → Nat → FontLayoutContext →
    Int × FontLayoutContext
  | [], _, _, ctx => (0, ctx)
  | id :: rest, frm, til, ctx =>
      let r := rc id frm til ctx
      if r.1 ≠ 0 then r else run_cond rc rest frm til r.2

/-- Apply f to the glyphs with indices in [a, b). -/
def mapRange (f : MFLTGlyph → MFLTGlyph) (l : List MFLTGlyph) (a b : Nat) : List MFLTGlyph :=
  l.mapIdx (fun i g => if a ≤ i ∧ i < b then f g else g)

/-- Read a glyph at a possibly negative index (the C code can walk a glyph
pointer before the buffer when adjustment back-references are long; the model
reads a default glyph there). -/
def grefI (l : List MFLTGlyph) (i : Int) : MFLTGlyph :=
  if 0 ≤ i then l.getD i.toNat default else default

/-- Sum of the x-advances of n glyphs walking left from index gi. -/
def sumXadvBack (glyphs : List MFLTGlyph) (gi : Int) (n : Nat) : Int :=
  (List.range n).foldl (fun s k => s + (grefI glyphs (gi - k)).xadv) 0

/-- The back-reference chain of the OTF adjustment loop: while the adjustment
at index j has back > 0, subtract the x-advances of back glyphs walking left
from glyph index gi, then jump back to the adjustment j - back and add its
offsets.  Fuel bounds the chain (j strictly decreases). -/
def backChain (glyphs : List MFLTGlyph) (adj : List MFLTGlyphAdjustment) :
    Nat → Nat → Int → Int × Int → Int × Int
  | 0, _, _, acc => acc
  | fuel + 1, j, gi, (x, y) =>
    let back := (adj.getD j default).back
    if back = 0 then (x, y)
    else
      let x2 := x - sumXadvBack glyphs gi back
      let j2 := j - back
      let a2 := adj.getD j2 default
      backChain glyphs adj fuel j2 (gi - back) (x2 + a2.xoff, y + a2.yoff)

/-- The adjustment application pass of run_otf (lines 1636..1672): metrics are
fetched for the new glyphs, then each adjustment is applied in order, the
x/y offsets resolving back-references against the glyph list updated so far. -/
def applyOtfAdjust (env : FLTFontEnv) (ctx : FontLayoutContext)
    (from_idx out_len : Nat) (adj : List MFLTGlyphAdjustment) : FontLayoutContext :=
  let gl0 := mapRange env.get_metrics ctx.out.glyphs from_idx ctx.out.used
  let gl := (List.range out_len).foldl (fun gl i =>
    let a := adj.getD i default
    let g := gl.getD (from_idx + i) default
    let g := { g with measured := true }
    let g := if a.advance_is_absolute then { g with xadv := a.xadv, yadv := a.yadv }
             else if a.xadv ≠ 0 ∨ a.yadv ≠ 0 then
               { g with xadv := g.xadv + a.xadv, yadv := g.yadv + a.yadv }
             else g
    let g := if a.xoff ≠ 0 ∨ a.yoff ≠ 0 then
               let xy := backChain gl adj (i + 1) i ((from_idx + i : Int) - 1) (a.xoff, a.yoff)
               { g with xoff := xy.1, yoff := xy.2 }
             else g
    gl.set (from_idx + i) g) gl0
  { ctx with out := { ctx.out with glyphs := gl } }

/-- The cluster update at the end of run_otf: widen the open cluster bounds
with every glyph the call appended from index from_idx on. -/
def clusterUpdateRange (ctx : FontLayoutContext) (from_idx : Nat) : FontLayoutContext :=
  if 0 ≤ ctx.cluster_begin_idx then
    (ctx.out.glyphs.drop from_idx).foldl (fun c g => UPDATE_CLUSTER_RANGE c g) ctx
  else ctx

/-- run_otf: resolve glyph ids for the range, then either the pass-through
branch (no drive_otf: capacity check, metrics, copy) or the adapter branch
(drive_otf plus the adjustment pass when GPOS features were requested and
some adjustment is set), then the cluster update. -/
def run_otf (env : FLTFontEnv) (spec : MFLTOtfSpec) (frm til : Nat)
    (ctx : FontLayoutContext) : Int × FontLayoutContext :=
  let from_idx := ctx.out.used
  let ctx := { ctx with
    inG := { ctx.inG with glyphs := mapRange env.get_glyph_id ctx.inG.glyphs frm til } }
  match env.drive_otf with
  | none =>
      if ctx.out.allocated < ctx.out.used + (til - frm) then (-2, ctx)
      else
        let ctx := { ctx with
          inG := { ctx.inG with glyphs := mapRange env.get_metrics ctx.inG.glyphs frm til } }
        let ctx := { ctx with
          out := { ctx.out with
            glyphs := ctx.out.glyphs ++ ((ctx.inG.glyphs.drop frm).take (til - frm)) } }
        ((til : Int), clusterUpdateRange ctx from_idx)
  | some d =>
      let r := d spec ctx.inG frm til ctx.out
      let ctx := { ctx with out := r.2.1 }
      if r.1 < 0 then (r.1, ctx)
      else
        let out_len := ctx.out.used - from_idx
        let ctx :=
          if spec.features1.isSome
              ∧ (List.range out_len).any (fun i => (r.2.2.getD i default).set) then
            applyOtfAdjust env ctx from_idx out_len r.2.2
          else ctx
        (r.1, clusterUpdateRange ctx from_idx)

/-- run_command: dispatch on the command id exactly as the C function does:
nonnegative ids are direct-code output, ids at or below CMD_ID_OFFSET_INDEX
index the command array of the stage, ids at or below
CMD_ID_OFFSET_COMBINING set the pending combining code, then the switch over
the builtin ids; every unknown id is the error -1.  Fuel bounds the
recursion depth; exhausted fuel is the error -1 (unreachable for the
finitely deep executions the theorems evaluate). -/
def run_command (env : FLTFontEnv) : Nat → Int → Nat → Nat → FontLayoutContext →
    Int × FontLayoutContext
  | 0, _, _, _, ctx => (-1, ctx)
  | fuel + 1, id, frm, til, ctx =>
    if 0 ≤ id then
      let i := if frm < til ∨ frm = 0 then frm else frm - 1
      match GDUP ctx i with
      | none => (-2, ctx)
      | some ctx1 =>
          let g := ctx1.out.glyphs.getD (ctx1.out.used - 1) default
          let g := { g with code := ctx.code_offset + id.toNat,
                            encoded := false, measured := false }
          let g := if ctx.combining_code ≠ 0 then { g with combiningCode := ctx.combining_code }
                   else g
          let cm := if ctx.combining_code ≠ 0 then ctx.check_mask.lor CombiningCodeMask
                    else ctx.check_mask
          let g := if ctx.left_padding then { g with leftPad := true } else g
          let cm := if ctx.left_padding then cm.lor LeftPaddingMask else cm
          let g := (List.range' frm (til - frm)).foldl (fun g i =>
              let tmp := ctx1.inG.glyphs.getD i default
              if tmp.frm < g.frm then { g with frm := tmp.frm }
              else if g.tto < tmp.tto then { g with tto := tmp.tto }
              else g) g
          let ctx2 := { ctx1 with
            out := { ctx1.out with glyphs := ctx1.out.glyphs.set (ctx1.out.used - 1) g },
            check_mask := cm }
          let ctx2 := UPDATE_CLUSTER_RANGE ctx2 g
          ((frm : Int), { ctx2 with code_offset := 0, combining_code := 0,
                                    left_padding := false })
    else if id ≤ CMD_ID_OFFSET_INDEX then
      let idx := CMD_ID_TO_INDEX id
      if ctx.stage.used ≤ idx then (-1, ctx)
      else
        match ctx.stage.cmds.getD idx .typeMAX with
        | .rule r => run_rule env (run_command env fuel) fuel r frm til ctx
        | .cond c => run_cond (run_command env fuel) c.cmd_ids frm til ctx
        | .otf spec => run_otf env spec frm til ctx
        | .typeMAX => ((til : Int), ctx)
    else if id ≤ CMD_ID_OFFSET_COMBINING then
      ((frm : Int), { ctx with combining_code := CMD_ID_TO_COMBINING_CODE id })
    else if id = CMD_ID_COPY then
      if til ≤ frm then ((frm : Int), ctx)
      else
        match GDUP ctx frm with
        | none => (-2, ctx)
        | some ctx1 =>
            let g := ctx1.out.glyphs.getD (ctx1.out.used - 1) default
            let g := if ctx.combining_code ≠ 0 then
                       { g with combiningCode := ctx.combining_code }
                     else g
            let cm := if ctx.combining_code ≠ 0 then ctx.check_mask.lor CombiningCodeMask
                      else ctx.check_mask
            let g := if ctx.left_padding then { g with leftPad := true } else g
            let cm := if ctx.left_padding then cm.lor LeftPaddingMask else cm
            let ctx2 := { ctx1 with
              out := { ctx1.out with glyphs := ctx1.out.glyphs.set (ctx1.out.used - 1) g },
              check_mask := cm }
            let ctx2 := UPDATE_CLUSTER_RANGE ctx2 g
            (((frm + 1 : Nat) : Int), { ctx2 with code_offset := 0, combining_code := 0,
                                                  left_padding := false })
    else if id = CMD_ID_CLUSTER_BEGIN then
      if ctx.cluster_begin_idx < 0 then
        ((frm : Int), { ctx with
          cluster_begin_idx := (ctx.out.used : Int),
          cluster_begin_pos := (ctx.inG.glyphs.getD frm default).frm,
          cluster_end_pos := (ctx.inG.glyphs.getD frm default).tto })
      else ((frm : Int), ctx)
    else if id = CMD_ID_CLUSTER_END then
      if 0 ≤ ctx.cluster_begin_idx ∧ ctx.cluster_begin_idx < (ctx.out.used : Int) then
        let b := ctx.cluster_begin_idx.toNat
        let gl := ctx.out.glyphs.mapIdx (fun i g =>
          if b ≤ i then { g with frm := ctx.cluster_begin_pos, tto := ctx.cluster_end_pos }
          else g)
        ((frm : Int), { ctx with out := { ctx.out with glyphs := gl },
                                 cluster_begin_idx := -1 })
      else ((frm : Int), ctx)
    else if id = CMD_ID_SEPARATOR then
      let i := if frm < til then frm else frm - 1
      match GDUP ctx i with
      | none => (-2, ctx)
      | some ctx1 =>
          let g := ctx1.out.glyphs.getD (ctx1.out.used - 1) default
          let g := { g with c := -1, code := 0, xadv := 0, yadv := 0,
                            encoded := false, measured := false }
          ((frm : Int), { ctx1 with
            out := { ctx1.out with glyphs := ctx1.out.glyphs.set (ctx1.out.used - 1) g } })
    else if id = CMD_ID_LEFT_PADDING then
      ((frm : Int), { ctx with left_padding := true })
    else if id = CMD_ID_RIGHT_PADDING then
      if 0 < ctx.out.used then
        let g := ctx.out.glyphs.getD (ctx.out.used - 1) default
        let g := { g with rightPad := true }
        ((frm : Int), { ctx with
          out := { ctx.out with glyphs := ctx.out.glyphs.set (ctx.out.used - 1) g },
          check_mask := ctx.check_mask.lor RightPaddingMask })
      else ((frm : Int), ctx)
    else (-1, ctx)

theorem list_getD_last {α : Type} [Inhabited α] (l : List α) (a d : α) :
    (l ++ [a]).getD l.length d = a := by
  induction l with
  | nil => rfl
  | cons x xs ih => simp [ih]

theorem list_set_last {α : Type} (l : List α) (a b : α) :
    (l ++ [a]).set l.length b = l ++ [b] := by
  induction l with
  | nil => rfl
  | cons x xs ih => simp [ih]

theorem UPDATE_CLUSTER_RANGE_out (ctx : FontLayoutContext) (g : MFLTGlyph) :
    (UPDATE_CLUSTER_RANGE ctx g).out = ctx.out := by
  unfold UPDATE_CLUSTER_RANGE; split <;> rfl

/-- C3 (amended): per covered segment, mflt_run makes at most 3 attempts (the
initial attempt plus up to 2 retries), doubling the output-buffer allocation
before each retry; the first attempt whose result is not the capacity signal
-2 is propagated immediately (also when negative), and when all 3 attempts
return -2 the result is -2.  The pipeline call (run_stages) is abstracted by
the oracle f from the attempt allocation, the only datum that varies between
attempts. -/
theorem C3_mflt_run_retry_protocol (f : Nat → Int) (a : Nat) :
    (f a ≠ -2 → mflt_run_retry f a = f a)
    ∧ (f a = -2 → f (a * 2) ≠ -2 → mflt_run_retry f a = f (a * 2))
    ∧ (f a = -2 → f (a * 2) = -2 → f (a * 2 * 2) ≠ -2 →
        mflt_run_retry f a = f (a * 2 * 2))
    ∧ (f a = -2 → f (a * 2) = -2 → f (a * 2 * 2) = -2 → mflt_run_retry f a = -2) := by
  refine ⟨?_, ?_, ?_, ?_⟩ <;>
    { intros; simp only [mflt_run_retry, run_stages_retry, *]; simp [*] }

/-- C3 witness: a pipeline succeeding at once is not retried. -/
theorem C3_mflt_run_retry_protocol_witness :
    mflt_run_retry (fun _ => 7) 4 = 7 :=
  (C3_mflt_run_retry_protocol (fun _ => 7) 4).1 (by decide)

/-- C3 counterexample: a pipeline that needs the allocation of a third
doubled retry.  The claim protocol (up to 3 retries after the initial
attempt, modelled by mflt_run_retry_claim) reaches allocation 32 and returns
its successful result 9; the code makes only 3 attempts in total (2 retries,
allocations 4, 8, 16) and returns -2. -/
theorem C3_counterexample :
    mflt_run_retry (fun a => if a < 32 then -2 else 9) 4 = -2
    ∧ mflt_run_retry_claim (fun a => if a < 32 then -2 else 9) 4 = 9 := by
  constructor <;> decide


/-- C7 (amended): the copy-current builtin with from = to (and generally
from >= to) is a no-op: it returns from, consumes no input glyph, and emits
no output glyph (it does not duplicate the glyph at from - 1); with
from < to it duplicates the input glyph at from and consumes exactly one
glyph (returns from + 1) when the output buffer has room: the output gains
exactly one glyph, the previous output glyphs are unchanged, and the new
last glyph carries the code of the input glyph at from. -/
theorem C7_copy_builtin (env : FLTFontEnv) (fuel frm til : Nat)
    (ctx : FontLayoutContext) :
    (til ≤ frm → run_command env (fuel + 1) CMD_ID_COPY frm til ctx = ((frm : Int), ctx))
    ∧ (frm < til → ctx.out.used < ctx.out.allocated →
        (run_command env (fuel + 1) CMD_ID_COPY frm til ctx).1 = ((frm + 1 : Nat) : Int)
        ∧ (run_command env (fuel + 1) CMD_ID_COPY frm til ctx).2.out.glyphs.length
            = ctx.out.glyphs.length + 1
        ∧ (run_command env (fuel + 1) CMD_ID_COPY frm til ctx).2.out.glyphs.take
            ctx.out.glyphs.length = ctx.out.glyphs
        ∧ ((run_command env (fuel + 1) CMD_ID_COPY frm til ctx).2.out.glyphs.getD
            ctx.out.glyphs.length default).code = (ctx.inG.glyphs.getD frm default).code) := by
  have c1 : ¬ (0 : Int) ≤ CMD_ID_COPY := by decide
  have c2 : ¬ CMD_ID_COPY ≤ CMD_ID_OFFSET_INDEX := by decide
  have c3 : ¬ CMD_ID_COPY ≤ CMD_ID_OFFSET_COMBINING := by decide
  constructor
  · intro h
    simp only [run_command, if_neg c1, if_neg c2, if_neg c3, if_pos h]
    simp
  · intro h hcap
    have h2 : ¬ til ≤ frm := Nat.not_le.mpr h
    have h3 : ¬ ctx.out.allocated ≤ ctx.out.used := Nat.not_le.mpr hcap
    have hG : GDUP ctx frm = some { ctx with out := { ctx.out with
        glyphs := ctx.out.glyphs ++ [ctx.inG.glyphs.getD frm default] } } := by
      simp [GDUP, h3]
    have hused : ({ ctx.out with
        glyphs := ctx.out.glyphs ++ [ctx.inG.glyphs.getD frm default] }
          : MFLTGlyphString).used - 1 = ctx.out.glyphs.length := by
      simp [MFLTGlyphString.used]
    simp only [run_command, if_neg c1, if_neg c2, if_neg c3, if_neg h2, hG]
    simp only [if_true, ite_true, reduceIte]
    refine ⟨by simp, ?_, ?_, ?_⟩ <;>
      simp only [UPDATE_CLUSTER_RANGE_out, hused, list_set_last, list_getD_last] <;>
      · split <;> split <;>
          simp [MFLTGlyphString.used, list_set_last, list_getD_last,
            List.take_append_eq_append_take]

/-- C7 witness: concrete instances of both halves: with from = to = 1 the
copy builtin is a no-op, and with from = 0 < to = 1 it copies one glyph. -/
theorem C7_copy_builtin_witness :
    (run_command {} 2 CMD_ID_COPY 1 1
        { inG := { glyphs := [{ code := 9 }], allocated := 1 },
          out := { glyphs := [], allocated := 4 } }
      = (1, { inG := { glyphs := [{ code := 9 }], allocated := 1 },
              out := { glyphs := [], allocated := 4 } }))
    ∧ (run_command {} 2 CMD_ID_COPY 0 1
        { inG := { glyphs := [{ code := 9 }], allocated := 1 },
          out := { glyphs := [], allocated := 4 } }).1 = 1 := by
  constructor
  · exact (C7_copy_builtin {} 1 1 1 _).1 (by decide)
  · have h := ((C7_copy_builtin {} 1 0 1
      { inG := { glyphs := [{ code := 9 }], allocated := 1 },
        out := { glyphs := [], allocated := 4 } }).2 (by decide) (by decide)).1
    simpa using h

/-- C7 counterexample: the claim says that with from = to the copy builtin
duplicates the glyph at from - 1 into the output buffer; on a concrete
context with from = to = 1 the code instead leaves the output buffer empty
and the context unchanged. -/
theorem C7_counterexample :
    (run_command {} 2 CMD_ID_COPY 1 1
        { inG := { glyphs := [{ code := 9 }], allocated := 1 },
          out := { glyphs := [], allocated := 4 } }).2.out.glyphs = []
    ∧ ¬ ((run_command {} 2 CMD_ID_COPY 1 1
        { inG := { glyphs := [{ code := 9 }], allocated := 1 },
          out := { glyphs := [], allocated := 4 } }).2.out.glyphs
      = [({ inG := { glyphs := [{ code := 9 }], allocated := 1 },
            out := { glyphs := [], allocated := 4 } }
              : FontLayoutContext).inG.glyphs.getD 0 default]) := by
  constructor <;> decide

/-- The context after running a list of cond alternatives in order (the
threading of ctx through failed alternatives in the run_cond loop). -/
def altsCtx (rc : RunCmd) : List Int → Nat → Nat → FontLayoutContext → FontLayoutContext
  | [], _, _, ctx => ctx
  | id :: rest, frm, til, ctx => altsCtx rc rest frm til (rc id frm til ctx).2

/-- Every alternative in the list returns 0 when run in order with the
context threaded through. -/
def altsAllFail (rc : RunCmd) : List Int → Nat → Nat → FontLayoutContext → Prop
  | [], _, _, _ => True
  | id :: rest, frm, til, ctx =>
      (rc id frm til ctx).1 = 0 ∧ altsAllFail rc rest frm til (rc id frm til ctx).2

/-- A cond scenario: (cond ((0x41 0x42) 0x100) ((0x41) 0x101)). -/
def condScenarioStage : FontLayoutStage :=
  { cmds := [ .cond ⟨[INDEX_TO_CMD_ID 1, INDEX_TO_CMD_ID 2]⟩,
              .rule ⟨.seq [0x41, 0x42], [0x100]⟩,
              .rule ⟨.seq [0x41], [0x101]⟩ ] }

/-- Input codes 0x41 0x42 for the cond scenario. -/
def condScenarioCtx : FontLayoutContext :=
  { stage := condScenarioStage,
    inG := { glyphs := [{ code := 0x41, frm := 0, tto := 1 },
                        { code := 0x42, frm := 1, tto := 2 }], allocated := 2 },
    out := { glyphs := [], allocated := 8 },
    match_indices := [0, 2] }

/-- C4: run_cond tries the alternatives in list order, the result is the
return value of the first alternative whose result is nonzero, and the cond
returns 0 exactly when every alternative returns 0 (with the context
threaded through the failed alternatives); concretely, the cond with
alternatives ((0x41 0x42) -> 0x100) and ((0x41) -> 0x101) on input codes
[0x41, 0x42] from position 0 returns 2 through its first alternative and
emits the single glyph with direct code 0x100. -/
theorem C4_run_cond_first_nonzero :
    (∀ (rc : RunCmd) (ids : List Int) (frm til : Nat) (ctx : FontLayoutContext),
      (altsAllFail rc ids frm til ctx
          ∧ run_cond rc ids frm til ctx = (0, altsCtx rc ids frm til ctx))
      ∨ ∃ k, ∃ h : k < ids.length,
          altsAllFail rc (ids.take k) frm til ctx
          ∧ (rc (ids.get ⟨k, h⟩) frm til (altsCtx rc (ids.take k) frm til ctx)).1 ≠ 0
          ∧ run_cond rc ids frm til ctx
              = rc (ids.get ⟨k, h⟩) frm til (altsCtx rc (ids.take k) frm til ctx))
    ∧ (run_command {} 6 (INDEX_TO_CMD_ID 0) 0 2 condScenarioCtx).1 = 2
    ∧ ((run_command {} 6 (INDEX_TO_CMD_ID 0) 0 2 condScenarioCtx).2.out.glyphs.map
        (fun g => g.code)) = [0x100] := by
  refine ⟨?_, by decide, by decide⟩
  intro rc ids frm til
  induction ids with
  | nil => intro ctx; exact Or.inl ⟨trivial, rfl⟩
  | cons id rest ih =>
      intro ctx
      by_cases h0 : (rc id frm til ctx).1 = 0
      · rcases ih (rc id frm til ctx).2 with ⟨hf, he⟩ | ⟨k, hk, hf, hnz, he⟩
        · left
          refine ⟨⟨h0, hf⟩, ?_⟩
          simp only [run_cond, h0]
          simpa using he
        · right
          refine ⟨k + 1, by simpa using hk, ⟨h0, hf⟩, hnz, ?_⟩
          simp only [run_cond, h0]
          simpa using he
      · right
        refine ⟨0, by simp, trivial, ?_, ?_⟩
        · simpa using h0
        · simp only [run_cond]
          simp [h0, altsCtx]

/-- The matching condition of a SRC_SEQ rule: the remaining range holds at
least as many glyphs as the code list and the glyph codes at from, from+1,
... equal the codes positionally (the length comparison is the C int
comparison, so an inverted range cannot match a nonempty sequence). -/
def seqCond (codes : List Nat) (frm til : Nat) (ctx : FontLayoutContext) : Prop :=
  ((codes.length : Int) ≤ (til : Int) - (frm : Int))
  ∧ ∀ i, i < codes.length → codes.getD i 0 = (ctx.inG.glyphs.getD (frm + i) default).code

instance (codes : List Nat) (frm til : Nat) (ctx : FontLayoutContext) :
    Decidable (seqCond codes frm til ctx) := by
  unfold seqCond; infer_instance

theorem ruleMatchPhase_seq (env : FLTFontEnv) (codes : List Nat) (frm til : Nat)
    (ctx : FontLayoutContext) :
    (seqCond codes frm til ctx →
        ruleMatchPhase env (.seq codes) frm til ctx = some (frm, frm + codes.length, ctx))
    ∧ (¬ seqCond codes frm til ctx → ruleMatchPhase env (.seq codes) frm til ctx = none) := by
  constructor
  · rintro ⟨h1, h2⟩
    simp only [ruleMatchPhase]
    rw [if_neg (not_lt.mpr h1), if_pos]
    exact List.all_eq_true.mpr fun i hi => by
      rw [beq_iff_eq]; exact h2 i (List.mem_range.mp hi)
  · intro h
    simp only [ruleMatchPhase]
    by_cases h1 : ((codes.length : Int) ≤ (til : Int) - (frm : Int))
    · rw [if_neg (not_lt.mpr h1), if_neg]
      intro hall
      exact h ⟨h1, fun i hi => by
        have := List.all_eq_true.mp hall i (List.mem_range.mpr hi)
        exact beq_iff_eq.mp this⟩
    · rw [if_pos (not_le.mp h1)]

theorem runSubCmds_err_neg (rc : RunCmd) : ∀ (fuel : Nat) (ids : List Int)
    (i frm til : Nat) (consumed : Bool) (ctx : FontLayoutContext)
    (e : Int) (c : FontLayoutContext),
    runSubCmds rc fuel ids i frm til consumed ctx = .err e c → e < 0 := by
  intro fuel
  induction fuel with
  | zero =>
      intro ids i frm til consumed ctx e c h
      simp only [runSubCmds] at h
      injection h with h1 h2
      omega
  | succ n ih =>
      intro ids i frm til consumed ctx e c h
      simp only [runSubCmds] at h
      by_cases hlt : i < ids.length
      · rw [if_pos hlt] at h
        by_cases hrep : ids.getD i 0 = CMD_ID_REPEAT ∧ consumed = false
        · rw [if_pos hrep] at h
          exact ih _ _ _ _ _ _ _ _ h
        · rw [if_neg hrep] at h
          by_cases hneg : (rc (ids.getD
              (if ids.getD i 0 = CMD_ID_REPEAT then i - 1 else i) 0) frm til ctx).1 < 0
          · rw [if_pos hneg] at h
            injection h with h1 h2
            omega
          · rw [if_neg hneg] at h
            exact ih _ _ _ _ _ _ _ _ h
      · rw [if_neg hlt] at h
        cases h

/-- C1: a SRC_SEQ rule matches exactly when the range holds enough glyphs and
the glyph codes equal the sequence positionally; on a mismatch or short
input run_rule returns the no-match result 0 with the entire context (so
also from, the output buffer, and every pending field) unchanged; on a match
the range is narrowed to exactly from + length before the sub-commands run
(running the rule is the same as running it with to already narrowed), and
every non-error return value is from + length. -/
theorem C1_literal_sequence_rule (env : FLTFontEnv) (rc : RunCmd) (fuel : Nat)
    (codes : List Nat) (ids : List Int) (frm til : Nat) (ctx : FontLayoutContext) :
    (¬ seqCond codes frm til ctx →
        run_rule env rc fuel ⟨.seq codes, ids⟩ frm til ctx = (0, ctx))
    ∧ (seqCond codes frm til ctx →
        run_rule env rc fuel ⟨.seq codes, ids⟩ frm til ctx
          = run_rule env rc fuel ⟨.seq codes, ids⟩ frm (frm + codes.length) ctx)
    ∧ (seqCond codes frm til ctx →
        0 ≤ (run_rule env rc fuel ⟨.seq codes, ids⟩ frm til ctx).1 →
        (run_rule env rc fuel ⟨.seq codes, ids⟩ frm til ctx).1
          = ((frm + codes.length : Nat) : Int)) := by
  refine ⟨?_, ?_, ?_⟩
  · intro h
    simp only [run_rule, (ruleMatchPhase_seq env codes frm til ctx).2 h]
  · intro h
    have h2 : seqCond codes frm (frm + codes.length) ctx := by
      refine ⟨?_, h.2⟩
      push_cast
      omega
    simp only [run_rule, (ruleMatchPhase_seq env codes frm til ctx).1 h,
      (ruleMatchPhase_seq env codes frm (frm + codes.length) ctx).1 h2]
  · intro h hge
    simp only [run_rule, (ruleMatchPhase_seq env codes frm til ctx).1 h] at hge ⊢
    cases hs : runSubCmds rc fuel ids 0 frm (frm + codes.length) false ctx with
    | err e c =>
        rw [hs] at hge
        have := runSubCmds_err_neg rc fuel ids 0 frm (frm + codes.length) false ctx e c hs
        simp at hge
        omega
    | ok c =>
        rfl

/-- C1 witness: a concrete two-code sequence on matching input returns
position 2, and a mismatching context returns the unchanged no-match. -/
theorem C1_literal_sequence_rule_witness :
    (run_rule {} (run_command {} 1) 1 ⟨.seq [1, 2], []⟩ 0 2
        { inG := { glyphs := [{ code := 1 }, { code := 2 }], allocated := 2 },
          out := { glyphs := [], allocated := 4 } }).1 = ((2 : Nat) : Int)
    ∧ run_rule {} (run_command {} 1) 1 ⟨.seq [1, 2], []⟩ 0 1
        { inG := { glyphs := [{ code := 1 }, { code := 2 }], allocated := 2 },
          out := { glyphs := [], allocated := 4 } }
      = (0, { inG := { glyphs := [{ code := 1 }, { code := 2 }], allocated := 2 },
              out := { glyphs := [], allocated := 4 } }) := by
  constructor
  · exact (C1_literal_sequence_rule {} (run_command {} 1) 1 [1, 2] [] 0 2 _).2.2
      (by decide) (by decide)
  · exact (C1_literal_sequence_rule {} (run_command {} 1) 1 [1, 2] [] 0 1 _).1 (by decide)

theorem foldl_code_invariant (step : MFLTGlyph → Nat → MFLTGlyph)
    (hstep : ∀ g i, (step g i).code = g.code) (l : List Nat) (g : MFLTGlyph) :
    (l.foldl step g).code = g.code := by
  induction l generalizing g with
  | nil => rfl
  | cons x xs ih => rw [List.foldl_cons, ih, hstep]

/-- Behaviour of a direct-code command (nonnegative id) when the output
buffer has room: it consumes nothing (returns from), appends exactly one
glyph whose code is the pending code offset plus the id, and resets the
pending code offset. -/
theorem run_command_direct (env : FLTFontEnv) (fuel : Nat) (id : Int) (hid : 0 ≤ id)
    (frm til : Nat) (ctx : FontLayoutContext) (hcap : ctx.out.used < ctx.out.allocated) :
    (run_command env (fuel + 1) id frm til ctx).1 = (frm : Int)
    ∧ (run_command env (fuel + 1) id frm til ctx).2.out.glyphs.length
        = ctx.out.glyphs.length + 1
    ∧ (run_command env (fuel + 1) id frm til ctx).2.out.glyphs.take ctx.out.glyphs.length
        = ctx.out.glyphs
    ∧ ((run_command env (fuel + 1) id frm til ctx).2.out.glyphs.getD
        ctx.out.glyphs.length default).code = ctx.code_offset + id.toNat
    ∧ (run_command env (fuel + 1) id frm til ctx).2.out.allocated = ctx.out.allocated
    ∧ (run_command env (fuel + 1) id frm til ctx).2.code_offset = 0 := by
  have h3 : ¬ ctx.out.allocated ≤ ctx.out.used := Nat.not_le.mpr hcap
  have hG : ∀ j, GDUP ctx j = some { ctx with out := { ctx.out with
      glyphs := ctx.out.glyphs ++ [ctx.inG.glyphs.getD j default] } } := fun j => by
    simp [GDUP, h3]
  have hused : ∀ (a : MFLTGlyph), ({ ctx.out with
      glyphs := ctx.out.glyphs ++ [a] } : MFLTGlyphString).used - 1
      = ctx.out.glyphs.length := fun a => by simp [MFLTGlyphString.used]
  simp only [run_command, if_pos hid, hG]
  simp only [UPDATE_CLUSTER_RANGE_out, hused, list_set_last, list_getD_last]
  refine ⟨trivial, by simp, by simp, ?_, trivial, trivial⟩
  rw [foldl_code_invariant _ (fun g i => by
    split
    · rfl
    · split <;> rfl)]
  split <;> split <;> rfl

/-- Input for the range scenario: a single glyph with code 0x0F42. -/
def rangeScenarioCtx : FontLayoutContext :=
  { inG := { glyphs := [{ code := 0x0F42, frm := 0, tto := 1 }], allocated := 1 },
    out := { glyphs := [], allocated := 4 } }

/-- C5: a SRC_RANGE rule applied at a position whose glyph code c satisfies
lo <= c <= hi matches exactly one glyph (the range is narrowed to from + 1)
and sets the pending code offset to c - lo, so that a direct-code
sub-command base emits a glyph with code base + (c - lo); when c lies
outside [lo, hi] (or nothing remains) the rule fails consuming nothing and
changing nothing; concretely (range 0x0F40 0x0F6A) -> 0x2221 applied to
code 0x0F42 returns position 1 and emits the single code 0x2223. -/
theorem C5_code_range_rule (env : FLTFontEnv) (fuel : Nat) (lo hi base : Nat)
    (frm til : Nat) (ctx : FontLayoutContext) :
    ((til ≤ frm ∨ (ctx.inG.glyphs.getD frm default).code < lo
        ∨ hi < (ctx.inG.glyphs.getD frm default).code) →
      ∀ (rc : RunCmd) (fuel2 : Nat) (ids : List Int),
        run_rule env rc fuel2 ⟨.range lo hi, ids⟩ frm til ctx = (0, ctx))
    ∧ (frm < til → lo ≤ (ctx.inG.glyphs.getD frm default).code →
        (ctx.inG.glyphs.getD frm default).code ≤ hi →
        ruleMatchPhase env (.range lo hi) frm til ctx
          = some (frm, frm + 1,
              { ctx with code_offset := (ctx.inG.glyphs.getD frm default).code - lo })
        ∧ (ctx.out.used < ctx.out.allocated →
            (run_rule env (run_command env (fuel + 1)) (fuel + 2)
                ⟨.range lo hi, [(base : Int)]⟩ frm til ctx).1 = ((frm + 1 : Nat) : Int)
            ∧ (run_rule env (run_command env (fuel + 1)) (fuel + 2)
                ⟨.range lo hi, [(base : Int)]⟩ frm til ctx).2.out.glyphs.length
              = ctx.out.glyphs.length + 1
            ∧ ((run_rule env (run_command env (fuel + 1)) (fuel + 2)
                ⟨.range lo hi, [(base : Int)]⟩ frm til ctx).2.out.glyphs.getD
                ctx.out.glyphs.length default).code
              = base + ((ctx.inG.glyphs.getD frm default).code - lo)))
    ∧ (run_rule {} (run_command {} 4) 4 ⟨.range 0x0F40 0x0F6A, [0x2221]⟩ 0 1
        rangeScenarioCtx).1 = 1
    ∧ ((run_rule {} (run_command {} 4) 4 ⟨.range 0x0F40 0x0F6A, [0x2221]⟩ 0 1
        rangeScenarioCtx).2.out.glyphs.map (fun g => g.code)) = [0x2223] := by
  refine ⟨?_, ?_, by decide, by decide⟩
  · intro hc rc fuel2 ids
    have hm : ruleMatchPhase env (.range lo hi) frm til ctx = none := by
      simp only [ruleMatchPhase]
      by_cases hft : til ≤ frm
      · rw [if_pos hft]
      · rw [if_neg hft]
        rcases hc with h | h | h
        · exact absurd h hft
        · rw [if_pos (Or.inl h)]
        · rw [if_pos (Or.inr h)]
    simp only [run_rule, hm]
  · intro h1 h2 h3
    have hm : ruleMatchPhase env (.range lo hi) frm til ctx
        = some (frm, frm + 1, { ctx with
            code_offset := (ctx.inG.glyphs.getD frm default).code - lo }) := by
      simp only [ruleMatchPhase]
      rw [if_neg (by omega), if_neg (by omega)]
    refine ⟨hm, ?_⟩
    intro hcap
    set ctx2 : FontLayoutContext := { ctx with
      code_offset := (ctx.inG.glyphs.getD frm default).code - lo } with hctx2
    have hcap2 : ctx2.out.used < ctx2.out.allocated := hcap
    have hd := run_command_direct env fuel (base : Int) (Int.natCast_nonneg base)
      frm (frm + 1) ctx2 hcap2
    have hnotrep : ¬ ((base : Int)) = CMD_ID_REPEAT := by
      rw [CMD_ID_REPEAT]; omega
    have hrep : ¬ (((base : Int)) = CMD_ID_REPEAT ∧ (false : Bool) = false) := by
      rintro ⟨hb, _⟩; exact hnotrep hb
    have hpos0 : ¬ ((run_command env (fuel + 1) (base : Int) frm (frm + 1) ctx2).1 < 0) := by
      rw [hd.1]; omega
    have hcons : ¬ ((frm : Int) < (run_command env (fuel + 1) (base : Int) frm (frm + 1)
        ctx2).1) := by
      rw [hd.1]; omega
    have hs : runSubCmds (run_command env (fuel + 1)) (fuel + 2) [(base : Int)] 0 frm
        (frm + 1) false ctx2
        = .ok (run_command env (fuel + 1) (base : Int) frm (frm + 1) ctx2).2 := by
      rw [runSubCmds, if_pos (by norm_num : (0 : Nat) < [(base : Int)].length)]
      rw [show ([(base : Int)].getD 0 0) = (base : Int) from rfl]
      rw [if_neg hrep]
      simp only [if_neg hnotrep]
      rw [show ([(base : Int)].getD 0 0) = (base : Int) from rfl]
      rw [if_neg hpos0, if_neg hcons, decide_eq_false hcons]
      rw [runSubCmds, if_neg (by norm_num)]
    simp only [run_rule, hm, hs]
    refine ⟨trivial, ?_, ?_⟩
    · exact hd.2.1
    · exact (hd.2.2.2.1).trans (by simp [hctx2]; omega)

/-- C5 witness: the range scenario run through the general theorem. -/
theorem C5_code_range_rule_witness :
    (run_rule {} (run_command {} 3) 4
        ⟨.range 0x0F40 0x0F6A, [((0x2221 : Nat) : Int)]⟩ 0 1 rangeScenarioCtx).1
      = ((0 + 1 : Nat) : Int) :=
  (((C5_code_range_rule {} 2 0x0F40 0x0F6A 0x2221 0 1 rangeScenarioCtx).2.1
      (by decide) (by decide) (by decide)).2 (by decide)).1

/-- C9 (amended): on the no-match return path and on a completed match
run_rule restores the capture-index array to its entry value: every
nonnegative result leaves match_indices as they were; on error propagation
from a sub-command (a negative result) run_rule returns immediately without
the restoration. -/
theorem C9_match_indices_restored (env : FLTFontEnv) (rc : RunCmd) (fuel : Nat)
    (rule : FontLayoutCmdRule) (frm til : Nat) (ctx : FontLayoutContext)
    (h : 0 ≤ (run_rule env rc fuel rule frm til ctx).1) :
    (run_rule env rc fuel rule frm til ctx).2.match_indices = ctx.match_indices := by
  unfold run_rule at h ⊢
  cases hm : ruleMatchPhase env rule.src frm til ctx with
  | none => rfl
  | some trip =>
      obtain ⟨frm2, to2, ctx2⟩ := trip
      cases hs : runSubCmds rc fuel rule.cmd_ids 0 frm2 to2 false ctx2 with
      | err e c =>
          rw [hm] at h
          simp only [hs] at h
          have := runSubCmds_err_neg rc fuel rule.cmd_ids 0 frm2 to2 false ctx2 e c hs
          omega
      | ok c =>
          simp only [hs]
          cases rule.src <;> rfl

/-- Oracle environment for the capture-restoration counterexample: regexec
recognises the anchored pattern on the one-letter subject. -/
def envRegexCE : FLTFontEnv :=
  { regexec := fun p s => if p = ['^', 'A'] ∧ s = ['A'] then some [some (0, 1)] else none }

/-- Context for the capture-restoration counterexample: matching input, a
zero-capacity output buffer, and a recognisable caller capture array. -/
def ctxRegexCE : FontLayoutContext :=
  { inG := { glyphs := [{ code := 65, frm := 0, tto := 1 }], allocated := 1 },
    out := { glyphs := [], allocated := 0 },
    encoded := ['A'],
    match_indices := [7, 7] }

/-- C9 counterexample: a regex rule whose sub-command fails with the
capacity signal returns -2 while leaving the context's capture-index array
pointing at the regex captures, not at the caller's array [7, 7]: the
error-propagation return path does not restore it. -/
theorem C9_counterexample :
    (run_rule envRegexCE (run_command envRegexCE 2) 2
        ⟨.regex ['^', 'A'], [CMD_ID_COPY]⟩ 0 1 ctxRegexCE).1 = -2
    ∧ ¬ (run_rule envRegexCE (run_command envRegexCE 2) 2
        ⟨.regex ['^', 'A'], [CMD_ID_COPY]⟩ 0 1 ctxRegexCE).2.match_indices
      = ctxRegexCE.match_indices := by
  constructor <;> decide

/-- C9 witness: a no-match return leaves the caller's captures in place. -/
theorem C9_match_indices_restored_witness :
    (run_rule {} (run_command {} 1) 1 ⟨.seq [5], []⟩ 0 0
        { match_indices := [3, 4] }).2.match_indices = [3, 4] :=
  C9_match_indices_restored {} (run_command {} 1) 1 ⟨.seq [5], []⟩ 0 0
    { match_indices := [3, 4] } (by decide)

/-- The implicit anchoring of a quoted pattern in load_command: when the
pattern does not begin with a caret, one is inserted at position 0 before
the pattern is handed to regcomp (the default character models the NUL an
empty C string presents). -/
def anchor_pattern (s : List Char) : List Char :=
  if s.headD (Char.ofNat 0) = '^' then s else '^' :: s

theorem storeMIFrom_getD (frm : Nat) (pm : List (Option (Nat × Nat))) :
    ∀ (n i j : Nat) (d : Int), j < n →
    ((storeMIFrom frm pm i n).getD (2 * j) d
      = (match pm.getD (i + j) none with
         | none => (-1 : Int)
         | some (so, _) => ((frm + so : Nat) : Int)))
    ∧ ((storeMIFrom frm pm i n).getD (2 * j + 1) d
      = (match pm.getD (i + j) none with
         | none => (-1 : Int)
         | some (_, eo) => ((frm + eo : Nat) : Int))) := by
  intro n
  induction n with
  | zero => intro i j d h; omega
  | succ m ih =>
      intro i j d h
      cases j with
      | zero =>
          simp only [Nat.mul_zero, Nat.add_zero, Nat.zero_add]
          cases hp : pm.getD i none with
          | none =>
              simp only [storeMIFrom]
              rw [hp]
              exact ⟨rfl, rfl⟩
          | some pr =>
              cases pr with
              | mk so eo =>
                  simp only [storeMIFrom]
                  rw [hp]
                  exact ⟨rfl, rfl⟩
      | succ k =>
          have hrec := ih (i + 1) k d (by omega)
          have h1 : i + (k + 1) = (i + 1) + k := by omega
          have h2 : 2 * (k + 1) = 2 * k + 1 + 1 := by omega
          have h3 : 2 * (k + 1) + 1 = 2 * k + 1 + 1 + 1 := by omega
          constructor
          · rw [h2, h1]
            cases hp : pm.getD i none with
            | none =>
                simp only [storeMIFrom]
                rw [hp]
                simp only [List.getD_cons_succ]
                exact hrec.1
            | some pr =>
                cases pr with
                | mk so eo =>
                    simp only [storeMIFrom]
                    rw [hp]
                    simp only [List.getD_cons_succ]
                    exact hrec.1
          · rw [h3, h1]
            cases hp : pm.getD i none with
            | none =>
                simp only [storeMIFrom]
                rw [hp]
                simp only [List.getD_cons_succ]
                exact hrec.2
            | some pr =>
                cases pr with
                | mk so eo =>
                    simp only [storeMIFrom]
                    rw [hp]
                    simp only [List.getD_cons_succ]
                    exact hrec.2

/-- C6: at compile time load_command prepends an implicit caret anchor to a
quoted pattern lacking one (and leaves an anchored pattern unchanged); at
run time a SRC_REGEX rule matches only when regexec succeeds on the encoded
category string restricted to [from, to) with the whole-match start at
relative offset 0: a failed regexec, an unset whole-match group and a
nonzero match start all yield the unchanged no-match result (0, ctx); on
success the match phase narrows the range end to from + eo (the match end
made absolute) and installs the capture array, in which every set group is
stored as the absolute positions from + so, from + eo and every unset group
as (-1, -1). -/
theorem C6_regex_rule (env : FLTFontEnv) (rc : RunCmd) (fuel : Nat)
    (pat : List Char) (ids : List Int) (frm til : Nat) (ctx : FontLayoutContext) :
    ((anchor_pattern pat).headD (Char.ofNat 0) = '^'
      ∧ (pat.headD (Char.ofNat 0) = '^' → anchor_pattern pat = pat)
      ∧ (¬ pat.headD (Char.ofNat 0) = '^' → anchor_pattern pat = '^' :: pat))
    ∧ (env.regexec pat (regexInput ctx frm til) = none →
        run_rule env rc fuel ⟨.regex pat, ids⟩ frm til ctx = (0, ctx))
    ∧ (∀ pm, env.regexec pat (regexInput ctx frm til) = some pm →
        pm.getD 0 none = none →
        run_rule env rc fuel ⟨.regex pat, ids⟩ frm til ctx = (0, ctx))
    ∧ (∀ pm so eo, env.regexec pat (regexInput ctx frm til) = some pm →
        pm.getD 0 none = some (so, eo) → so ≠ 0 →
        run_rule env rc fuel ⟨.regex pat, ids⟩ frm til ctx = (0, ctx))
    ∧ (∀ pm eo, frm ≤ til → env.regexec pat (regexInput ctx frm til) = some pm →
        pm.getD 0 none = some (0, eo) →
        ruleMatchPhase env (.regex pat) frm til ctx
          = some (frm, frm + eo,
              { ctx with match_indices := storeMatchIndices frm pm }))
    ∧ (∀ (pm : List (Option (Nat × Nat))) (j : Nat) (d : Int), j < NMATCH →
        ((storeMatchIndices frm pm).getD (2 * j) d
          = (match pm.getD j none with
             | none => (-1 : Int)
             | some (so, _) => ((frm + so : Nat) : Int)))
        ∧ ((storeMatchIndices frm pm).getD (2 * j + 1) d
          = (match pm.getD j none with
             | none => (-1 : Int)
             | some (_, eo) => ((frm + eo : Nat) : Int)))) := by
  refine ⟨⟨?_, ?_, ?_⟩, ?_, ?_, ?_, ?_, ?_⟩
  · unfold anchor_pattern
    split
    · assumption
    · rfl
  · intro h
    unfold anchor_pattern
    rw [if_pos h]
  · intro h
    unfold anchor_pattern
    rw [if_neg h]
  · intro hre
    have hm : ruleMatchPhase env (.regex pat) frm til ctx = none := by
      simp only [ruleMatchPhase]
      by_cases hf : til < frm
      · rw [if_pos hf]
      · rw [if_neg hf, hre]
    simp only [run_rule, hm]
  · intro pm hre hpm
    have hm : ruleMatchPhase env (.regex pat) frm til ctx = none := by
      simp only [ruleMatchPhase]
      by_cases hf : til < frm
      · rw [if_pos hf]
      · rw [if_neg hf]
        simp only [hre, hpm]
    simp only [run_rule, hm]
  · intro pm so eo hre hpm hso
    cases so with
    | zero => exact absurd rfl hso
    | succ n =>
        have hm : ruleMatchPhase env (.regex pat) frm til ctx = none := by
          simp only [ruleMatchPhase]
          by_cases hf : til < frm
          · rw [if_pos hf]
          · rw [if_neg hf]
            simp only [hre, hpm]
        simp only [run_rule, hm]
  · intro pm eo hle hre hpm
    simp only [ruleMatchPhase]
    rw [if_neg (not_lt.mpr hle)]
    simp only [hre, hpm]
    have hpm2 : pm[0]?.getD none = some (0, eo) := by simpa using hpm
    have hm1 : (storeMatchIndices frm pm).getD 1 0 = ((frm + eo : Nat) : Int) := by
      have h0 := (storeMIFrom_getD frm pm NMATCH 0 0 0 (by norm_num [NMATCH])).2
      rw [storeMatchIndices]
      simpa [hpm2] using h0
    rw [hm1]
    simp
    omega
  · intro pm j d hj
    have h0 := storeMIFrom_getD frm pm NMATCH 0 j d hj
    simpa [storeMatchIndices] using h0

/-- C6 witness: with a regexec oracle that finds no match, the regex rule
returns the unchanged no-match result. -/
theorem C6_regex_rule_witness :
    run_rule {} (run_command {} 1) 1 ⟨.regex ['^', 'A'], []⟩ 0 1
        { encoded := ['A'], match_indices := [7, 7] }
      = (0, { encoded := ['A'], match_indices := [7, 7] }) :=
  (C6_regex_rule {} (run_command {} 1) 1 ['^', 'A'] [] 0 1
    { encoded := ['A'], match_indices := [7, 7] }).2.1 (by decide)

/-- The runtime-relevant fields of struct _MFLT for the registry lookup
(name, family/registry filters, table-level OTF probe, coverage table); the
coverage chartable of the core library is modelled as its lookup
function. -/
structure MFLTTable where
  name : String := ""
  family : Option String := none
  registry : Option String := none
  otf : Option MFLTOtfSpec := none
  coverage : Int → Bool := fun _ => false

/-- The fields of MFLTFont that mflt_find consults. -/
structure MFLTFontInfo where
  family : Option String := none
  check_otf : Option (MFLTOtfSpec → Bool) := none

/-- The probe a table-level (or rule-level) OTF spec must pass: with a
check_otf callback the callback decides; without one the spec is accepted
only when neither feature array requires concrete features. -/
def otf_probe_ok (font : MFLTFontInfo) (spec : MFLTOtfSpec) : Bool :=
  match font.check_otf with
  | none => !(featuresConcrete spec.features0 || featuresConcrete spec.features1)
  | some chk => chk spec

/-- The registry skip test of mflt_find: the C code keeps a table whose
registry is unicode-bmp or unicode-full and skips every other one. -/
def registry_unicode (flt : MFLTTable) : Bool :=
  flt.registry == some "unicode-bmp" || flt.registry == some "unicode-full"

/-- The family skip test of mflt_find: a table passes when it declares no
family or its declared family equals the font family. -/
def family_ok (font : MFLTFontInfo) (flt : MFLTTable) : Bool :=
  match flt.family with
  | none => true
  | some f => some f == font.family

/-- The coverage skip test of mflt_find: a table passes when c is negative
or its coverage table holds c. -/
def coverage_ok (c : Int) (flt : MFLTTable) : Bool :=
  !(decide (0 ≤ c)) || flt.coverage c

/-- A table passes the probe test when it declares no table-level OTF spec
or the declared spec passes otf_probe_ok. -/
def probe_ok (font : MFLTFontInfo) (flt : MFLTTable) : Bool :=
  match flt.otf with
  | none => true
  | some spec => otf_probe_ok font spec

/-- A table that survives every skip test of the mflt_find scan. -/
def flt_eligible (c : Int) (font : MFLTFontInfo) (flt : MFLTTable) : Bool :=
  registry_unicode flt && family_ok font flt && coverage_ok c flt && probe_ok font flt

/-- The font-given scan loop of mflt_find (lines 2277..2308): each skip test
is the negation of the corresponding keep test above; a table with a
passing table-level OTF probe is returned immediately, a probe-less
eligible table overwrites the best candidate and the scan continues. -/
def mflt_find_loop (c : Int) (font : MFLTFontInfo) :
    List MFLTTable → Option MFLTTable → Option MFLTTable
  | [], best => best
  | flt :: rest, best =>
    if registry_unicode flt = false then mflt_find_loop c font rest best
    else if family_ok font flt = false then mflt_find_loop c font rest best
    else if coverage_ok c flt = false then mflt_find_loop c font rest best
    else
      match flt.otf with
      | some spec =>
          if otf_probe_ok font spec then some flt
          else mflt_find_loop c font rest best
      | none => mflt_find_loop c font rest (some flt)

/-- mflt_find with a non-null font: scan the table list with no initial
best candidate. -/
def mflt_find (c : Int) (font : MFLTFontInfo) (flt_list : List MFLTTable) :
    Option MFLTTable :=
  mflt_find_loop c font flt_list none

/-- Modelled from the spec as amended: among the eligible tables (registry,
family and coverage filters passed, and the table-level OTF probe passed
when one is declared), the first one declaring an OTF probe wins
immediately; when no eligible table declares a probe, the last eligible
table of the scan is returned (not the first, as the claim words it). -/
def mflt_find_spec (c : Int) (font : MFLTFontInfo) (l : List MFLTTable) :
    Option MFLTTable :=
  match (l.filter (flt_eligible c font)).find? (fun f => f.otf.isSome) with
  | some f => some f
  | none => (l.filter (flt_eligible c font)).getLast?

theorem mflt_find_loop_eq (c : Int) (font : MFLTFontInfo) :
    ∀ (l : List MFLTTable) (best : Option MFLTTable),
    mflt_find_loop c font l best
      = match (l.filter (flt_eligible c font)).find? (fun f => f.otf.isSome) with
        | some f => some f
        | none =>
            match (l.filter (flt_eligible c font)).getLast? with
            | some x => some x
            | none => best := by
  intro l
  induction l with
  | nil => intro best; rfl
  | cons flt rest ih =>
      intro best
      by_cases h1 : registry_unicode flt = false
      · have he : flt_eligible c font flt = false := by
          simp [flt_eligible, h1]
        simp only [mflt_find_loop, if_pos h1, List.filter_cons, he]
        exact ih best
      · by_cases h2 : family_ok font flt = false
        · have he : flt_eligible c font flt = false := by
            simp [flt_eligible, h2]
          simp only [mflt_find_loop, if_neg h1, if_pos h2, List.filter_cons, he]
          exact ih best
        · by_cases h3 : coverage_ok c flt = false
          · have he : flt_eligible c font flt = false := by
              simp [flt_eligible, h3]
            simp only [mflt_find_loop, if_neg h1, if_neg h2, if_pos h3, List.filter_cons, he]
            exact ih best
          · have h1t : registry_unicode flt = true := by simpa using h1
            have h2t : family_ok font flt = true := by simpa using h2
            have h3t : coverage_ok c flt = true := by simpa using h3
            cases ho : flt.otf with
            | some spec =>
                by_cases hp : otf_probe_ok font spec = true
                · have he : flt_eligible c font flt = true := by
                    simp [flt_eligible, h1t, h2t, h3t, probe_ok, ho, hp]
                  simp only [mflt_find_loop, if_neg h1, if_neg h2, if_neg h3, ho, if_pos hp,
                    List.filter_cons, he, if_true]
                  simp [List.find?_cons, ho]
                · have he : flt_eligible c font flt = false := by
                    simp [flt_eligible, probe_ok, ho, hp]
                  simp only [mflt_find_loop, if_neg h1, if_neg h2, if_neg h3, ho, if_neg hp,
                    List.filter_cons, he]
                  exact ih best
            | none =>
                have he : flt_eligible c font flt = true := by
                  simp [flt_eligible, h1t, h2t, h3t, probe_ok, ho]
                simp only [mflt_find_loop, if_neg h1, if_neg h2, if_neg h3, ho,
                  List.filter_cons, he, if_true]
                rw [ih (some flt), List.find?_cons]
                simp only [ho, Option.isSome_none]
                cases hf : (rest.filter (flt_eligible c font)).find? (fun f => f.otf.isSome) with
                | some f => rfl
                | none =>
                    cases her : rest.filter (flt_eligible c font) with
                    | nil => rfl
                    | cons y ys =>
                        rw [List.getLast?_cons_cons,
                          List.getLast?_eq_getLast_of_ne_nil (List.cons_ne_nil y ys)]

/-- C8 (amended): the font-given scan of mflt_find skips non-Unicode
registries, mismatching family filters, non-covering tables and tables
whose declared table-level OTF probe is not realizable (so every returned
table is eligible); among the eligible tables, the first one declaring an
OTF probe is returned immediately at its scan position, and when no
eligible table declares one, the scan returns the LAST eligible table, not
the first coverage match. -/
theorem C8_mflt_find (c : Int) (font : MFLTFontInfo) (l : List MFLTTable) :
    mflt_find c font l = mflt_find_spec c font l
    ∧ (∀ flt, mflt_find c font l = some flt → flt_eligible c font flt = true) := by
  have hspec : mflt_find c font l = mflt_find_spec c font l := by
    unfold mflt_find mflt_find_spec
    rw [mflt_find_loop_eq]
    cases (l.filter (flt_eligible c font)).find? (fun f => f.otf.isSome) with
    | some f => rfl
    | none =>
        cases (l.filter (flt_eligible c font)).getLast? with
        | some x => rfl
        | none => rfl
  refine ⟨hspec, ?_⟩
  intro flt h
  rw [hspec] at h
  unfold mflt_find_spec at h
  cases hf : (l.filter (flt_eligible c font)).find? (fun f => f.otf.isSome) with
  | some f =>
      rw [hf] at h
      have hm := List.mem_of_find?_eq_some hf
      cases h
      exact (List.mem_filter.mp hm).2
  | none =>
      rw [hf] at h
      have hmem : flt ∈ l.filter (flt_eligible c font) := by
        obtain ⟨hne, heq⟩ := List.mem_getLast?_eq_getLast (l := l.filter (flt_eligible c font))
          (x := flt) h
        rw [heq]
        exact List.getLast_mem hne
      exact (List.mem_filter.mp hmem).2

/-- First probe-less eligible table of the counterexample scan. -/
def fltTableA : MFLTTable :=
  { name := "A", registry := some "unicode-bmp", coverage := fun _ => true }

/-- Second probe-less eligible table of the counterexample scan. -/
def fltTableB : MFLTTable :=
  { name := "B", registry := some "unicode-bmp", coverage := fun _ => true }

/-- C8 counterexample: with two eligible probe-less tables A then B in scan
order, mflt_find returns B (the last one), although A is an earlier
eligible coverage match, refuting first-match-wins. -/
theorem C8_counterexample :
    (mflt_find 65 {} [fltTableA, fltTableB]).map (fun t => t.name) = some "B"
    ∧ flt_eligible 65 {} fltTableA = true
    ∧ fltTableA.name = "A"
    ∧ ¬ (mflt_find 65 {} [fltTableA, fltTableB]).map (fun t => t.name) = some "A" := by
  refine ⟨rfl, rfl, rfl, by decide⟩

/-- C8 witness: the table returned by the counterexample scan is eligible. -/
theorem C8_mflt_find_witness :
    flt_eligible 65 ({} : MFLTFontInfo) fltTableB = true :=
  (C8_mflt_find 65 {} [fltTableA, fltTableB]).2 fltTableB rfl

/-- The output buffer is untouched by the source-matching phase of
run_rule: only code_offset (SRC_RANGE) or match_indices (SRC_REGEX) are
updated. -/
theorem ruleMatchPhase_out (env : FLTFontEnv) (src : FLTRuleSrc) (frm til : Nat)
    (ctx : FontLayoutContext) (a b : Nat) (ctx2 : FontLayoutContext)
    (h : ruleMatchPhase env src frm til ctx = some (a, b, ctx2)) : ctx2.out = ctx.out := by
  cases src with
  | seq codes =>
      simp only [ruleMatchPhase] at h
      split at h
      · simp at h
      · split at h
        · simp only [Option.some.injEq, Prod.mk.injEq] at h
          rw [← h.2.2]
        · simp at h
  | range lo hi =>
      simp only [ruleMatchPhase] at h
      split at h
      · simp at h
      · split at h
        · simp at h
        · simp only [Option.some.injEq, Prod.mk.injEq] at h
          rw [← h.2.2]
  | regex pat =>
      simp only [ruleMatchPhase] at h
      split at h
      · simp at h
      · split at h
        · simp at h
        · split at h
          · simp only [Option.some.injEq, Prod.mk.injEq] at h
            rw [← h.2.2]
          · simp at h
  | matchIdx k =>
      simp only [ruleMatchPhase] at h
      split at h
      · simp at h
      · split at h
        · simp at h
        · simp only [Option.some.injEq, Prod.mk.injEq] at h
          rw [← h.2.2]
  | hasGlyph sg =>
      cases sg with
      | none =>
          simp only [ruleMatchPhase] at h
          split at h
          · simp at h
          · split at h
            · simp only [Option.some.injEq, Prod.mk.injEq] at h
              rw [← h.2.2]
            · split at h
              · simp only [Option.some.injEq, Prod.mk.injEq] at h
                rw [← h.2.2]
              · simp at h
      | some code =>
          simp only [ruleMatchPhase] at h
          split at h
          · simp only [Option.some.injEq, Prod.mk.injEq] at h
            rw [← h.2.2]
          · simp at h
  | otfSpec spec =>
      simp only [ruleMatchPhase] at h
      split at h
      · split at h
        · simp at h
        · simp only [Option.some.injEq, Prod.mk.injEq] at h
          rw [← h.2.2]
      · split at h
        · simp only [Option.some.injEq, Prod.mk.injEq] at h
          rw [← h.2.2]
        · simp at h

theorem foldl_length_invariant (step : List MFLTGlyph → Nat → List MFLTGlyph)
    (hstep : ∀ gl i, (step gl i).length = gl.length) :
    ∀ (idxs : List Nat) (gl : List MFLTGlyph), (idxs.foldl step gl).length = gl.length := by
  intro idxs
  induction idxs with
  | nil => intro gl; rfl
  | cons x xs ih => intro gl; rw [List.foldl_cons, ih, hstep]

theorem foldl_update_cluster_out : ∀ (gs : List MFLTGlyph) (ctx : FontLayoutContext),
    (gs.foldl (fun c g => UPDATE_CLUSTER_RANGE c g) ctx).out = ctx.out := by
  intro gs
  induction gs with
  | nil => intro ctx; rfl
  | cons g gs ih => intro ctx; rw [List.foldl_cons, ih, UPDATE_CLUSTER_RANGE_out]

theorem clusterUpdateRange_out (ctx : FontLayoutContext) (fi : Nat) :
    (clusterUpdateRange ctx fi).out = ctx.out := by
  unfold clusterUpdateRange
  split
  · exact foldl_update_cluster_out _ ctx
  · rfl

/-- The length- and capacity-preservation of the adjustment pass. -/
theorem applyOtfAdjust_out (env : FLTFontEnv) (ctx : FontLayoutContext)
    (from_idx out_len : Nat) (adj : List MFLTGlyphAdjustment) :
    (applyOtfAdjust env ctx from_idx out_len adj).out.glyphs.length
        = ctx.out.glyphs.length
    ∧ (applyOtfAdjust env ctx from_idx out_len adj).out.allocated = ctx.out.allocated := by
  unfold applyOtfAdjust
  refine ⟨?_, rfl⟩
  rw [foldl_length_invariant _ (fun gl i => by simp [List.length_set])]
  simp [mapRange]

/-- The contract the adapter's drive_otf callback keeps with the engine:
the output buffer it returns never exceeds (nor reallocates) the capacity
of the buffer it was handed. -/
def DriveOk (env : FLTFontEnv) : Prop :=
  ∀ d, env.drive_otf = some d →
    ∀ (spec : MFLTOtfSpec) (gin : MFLTGlyphString) (frm til : Nat) (gout : MFLTGlyphString),
      (d spec gin frm til gout).2.1.used ≤ (d spec gin frm til gout).2.1.allocated
      ∧ (d spec gin frm til gout).2.1.allocated = gout.allocated

/-- The capacity invariant a next-depth interpreter preserves. -/
def PreservesOut (rc : RunCmd) : Prop :=
  ∀ (id : Int) (frm til : Nat) (ctx : FontLayoutContext),
    ctx.out.used ≤ ctx.out.allocated →
    (rc id frm til ctx).2.out.used ≤ (rc id frm til ctx).2.out.allocated
    ∧ (rc id frm til ctx).2.out.allocated = ctx.out.allocated

theorem applyOtfAdjust_pres (env : FLTFontEnv) (ctx : FontLayoutContext)
    (fi ol : Nat) (adj : List MFLTGlyphAdjustment)
    (h : ctx.out.used ≤ ctx.out.allocated) :
    (applyOtfAdjust env ctx fi ol adj).out.used
        ≤ (applyOtfAdjust env ctx fi ol adj).out.allocated
    ∧ (applyOtfAdjust env ctx fi ol adj).out.allocated = ctx.out.allocated := by
  have h2 := applyOtfAdjust_out env ctx fi ol adj
  constructor
  · simp only [MFLTGlyphString.used] at h ⊢
    rw [h2.1, h2.2]
    exact h
  · exact h2.2

theorem run_otf_pres (env : FLTFontEnv) (hd : DriveOk env) (spec : MFLTOtfSpec)
    (frm til : Nat) (ctx : FontLayoutContext) (h : ctx.out.used ≤ ctx.out.allocated) :
    (run_otf env spec frm til ctx).2.out.used ≤ (run_otf env spec frm til ctx).2.out.allocated
    ∧ (run_otf env spec frm til ctx).2.out.allocated = ctx.out.allocated := by
  unfold run_otf
  cases hdr : env.drive_otf with
  | none =>
      simp only []
      split
      · exact ⟨h, rfl⟩
      · rw [clusterUpdateRange_out]
        constructor
        · simp only [MFLTGlyphString.used, List.length_append, List.length_take] at *
          omega
        · rfl
  | some d =>
      have hdo := hd d hdr
      simp only []
      split
      · exact ⟨(hdo spec _ frm til _).1, (hdo spec _ frm til _).2⟩
      · rw [clusterUpdateRange_out]
        split
        · constructor
          · exact (applyOtfAdjust_pres env _ _ _ _ (hdo spec _ frm til _).1).1
          · exact ((applyOtfAdjust_pres env _ _ _ _ (hdo spec _ frm til _).1).2).trans
              (hdo spec _ frm til _).2
        · exact ⟨(hdo spec _ frm til _).1, (hdo spec _ frm til _).2⟩

/-- The context a sub-command loop outcome carries. -/
def SubRes.ctxOf : SubRes → FontLayoutContext
  | .err _ c => c
  | .ok c => c

theorem runSubCmds_pres (rc : RunCmd) (hrc : PreservesOut rc) :
    ∀ (fuel : Nat) (ids : List Int) (i frm til : Nat) (consumed : Bool)
      (ctx : FontLayoutContext), ctx.out.used ≤ ctx.out.allocated →
    (runSubCmds rc fuel ids i frm til consumed ctx).ctxOf.out.used
        ≤ (runSubCmds rc fuel ids i frm til consumed ctx).ctxOf.out.allocated
    ∧ (runSubCmds rc fuel ids i frm til consumed ctx).ctxOf.out.allocated
        = ctx.out.allocated := by
  intro fuel
  induction fuel with
  | zero => intro ids i frm til consumed ctx h; exact ⟨h, rfl⟩
  | succ n ih =>
      intro ids i frm til consumed ctx h
      simp only [runSubCmds]
      by_cases hlt : i < ids.length
      · rw [if_pos hlt]
        by_cases hrep : ids.getD i 0 = CMD_ID_REPEAT ∧ consumed = false
        · rw [if_pos hrep]
          exact ih ids (i + 1) frm til consumed ctx h
        · rw [if_neg hrep]
          have hstep := hrc (ids.getD (if ids.getD i 0 = CMD_ID_REPEAT then i - 1 else i) 0)
            frm til ctx h
          by_cases hneg : (rc (ids.getD (if ids.getD i 0 = CMD_ID_REPEAT then i - 1 else i) 0)
              frm til ctx).1 < 0
          · rw [if_pos hneg]
            exact ⟨hstep.1, hstep.2⟩
          · rw [if_neg hneg]
            have hrec := ih ids ((if ids.getD i 0 = CMD_ID_REPEAT then i - 1 else i) + 1)
              (if (frm : Int) < (rc (ids.getD
                  (if ids.getD i 0 = CMD_ID_REPEAT then i - 1 else i) 0) frm til ctx).1
               then (rc (ids.getD
                  (if ids.getD i 0 = CMD_ID_REPEAT then i - 1 else i) 0) frm til ctx).1.toNat
               else frm) til
              (decide ((frm : Int) < (rc (ids.getD
                  (if ids.getD i 0 = CMD_ID_REPEAT then i - 1 else i) 0) frm til ctx).1))
              (rc (ids.getD (if ids.getD i 0 = CMD_ID_REPEAT then i - 1 else i) 0)
                frm til ctx).2 hstep.1
            exact ⟨hrec.1, hrec.2.trans hstep.2⟩
      · rw [if_neg hlt]
        exact ⟨h, rfl⟩

theorem run_cond_pres (rc : RunCmd) (hrc : PreservesOut rc) :
    ∀ (ids : List Int) (frm til : Nat) (ctx : FontLayoutContext),
    ctx.out.used ≤ ctx.out.allocated →
    (run_cond rc ids frm til ctx).2.out.used
        ≤ (run_cond rc ids frm til ctx).2.out.allocated
    ∧ (run_cond rc ids frm til ctx).2.out.allocated = ctx.out.allocated := by
  intro ids
  induction ids with
  | nil => intro frm til ctx h; exact ⟨h, rfl⟩
  | cons id rest ih =>
      intro frm til ctx h
      simp only [run_cond]
      have hstep := hrc id frm til ctx h
      split
      · exact ⟨hstep.1, hstep.2⟩
      · have hrec := ih frm til (rc id frm til ctx).2 hstep.1
        exact ⟨hrec.1, hrec.2.trans hstep.2⟩

theorem run_rule_pres (env : FLTFontEnv) (rc : RunCmd) (hrc : PreservesOut rc)
    (fuel : Nat) (rule : FontLayoutCmdRule) (frm til : Nat) (ctx : FontLayoutContext)
    (h : ctx.out.used ≤ ctx.out.allocated) :
    (run_rule env rc fuel rule frm til ctx).2.out.used
        ≤ (run_rule env rc fuel rule frm til ctx).2.out.allocated
    ∧ (run_rule env rc fuel rule frm til ctx).2.out.allocated = ctx.out.allocated := by
  unfold run_rule
  cases hm : ruleMatchPhase env rule.src frm til ctx with
  | none => exact ⟨h, rfl⟩
  | some trip =>
      obtain ⟨a, b, ctx2⟩ := trip
      have hout := ruleMatchPhase_out env rule.src frm til ctx a b ctx2 hm
      have h2 : ctx2.out.used ≤ ctx2.out.allocated := by rw [hout]; exact h
      have hsub := runSubCmds_pres rc hrc fuel rule.cmd_ids 0 a b false ctx2 h2
      have hallc : ctx2.out.allocated = ctx.out.allocated :=
        congrArg MFLTGlyphString.allocated hout
      cases hs : runSubCmds rc fuel rule.cmd_ids 0 a b false ctx2 with
      | err e c =>
          rw [hs] at hsub
          simp only [hs]
          exact ⟨hsub.1, hsub.2.trans hallc⟩
      | ok c =>
          rw [hs] at hsub
          simp only [hs]
          cases rule.src <;> exact ⟨hsub.1, hsub.2.trans hallc⟩

theorem run_command_pres (env : FLTFontEnv) (hd : DriveOk env) :
    ∀ (fuel : Nat) (id : Int) (frm til : Nat) (ctx : FontLayoutContext),
    ctx.out.used ≤ ctx.out.allocated →
    (run_command env fuel id frm til ctx).2.out.used
        ≤ (run_command env fuel id frm til ctx).2.out.allocated
    ∧ (run_command env fuel id frm til ctx).2.out.allocated = ctx.out.allocated := by
  intro fuel
  induction fuel with
  | zero => intro id frm til ctx h; exact ⟨h, rfl⟩
  | succ n ih =>
      intro id frm til ctx h
      have hrc : PreservesOut (run_command env n) := fun id2 f2 t2 c2 hh => ih id2 f2 t2 c2 hh
      simp only [run_command]
      by_cases h0 : (0 : Int) ≤ id
      · rw [if_pos h0]
        by_cases hfull : ctx.out.allocated ≤ ctx.out.used
        · rw [show GDUP ctx (if frm < til ∨ frm = 0 then frm else frm - 1) = none from by
            simp [GDUP, hfull]]
          exact ⟨h, rfl⟩
        · have hG : ∀ j, GDUP ctx j = some { ctx with out := { ctx.out with
              glyphs := ctx.out.glyphs ++ [ctx.inG.glyphs.getD j default] } } := fun j => by
            simp [GDUP, hfull]
          simp only [hG, UPDATE_CLUSTER_RANGE_out]
          constructor
          · simp [MFLTGlyphString.used, UPDATE_CLUSTER_RANGE_out] at hfull ⊢
            omega
          · simp [UPDATE_CLUSTER_RANGE_out]
      · rw [if_neg h0]
        by_cases h1 : id ≤ CMD_ID_OFFSET_INDEX
        · rw [if_pos h1]
          by_cases h2 : ctx.stage.used ≤ CMD_ID_TO_INDEX id
          · rw [if_pos h2]
            exact ⟨h, rfl⟩
          · rw [if_neg h2]
            cases hcm : ctx.stage.cmds.getD (CMD_ID_TO_INDEX id) FontLayoutCmd.typeMAX with
            | rule r => exact run_rule_pres env (run_command env n) hrc n r frm til ctx h
            | cond cc => exact run_cond_pres (run_command env n) hrc cc.cmd_ids frm til ctx h
            | otf spec => exact run_otf_pres env hd spec frm til ctx h
            | typeMAX => exact ⟨h, rfl⟩
        · rw [if_neg h1]
          by_cases h2 : id ≤ CMD_ID_OFFSET_COMBINING
          · rw [if_pos h2]
            exact ⟨h, rfl⟩
          · rw [if_neg h2]
            by_cases h3 : id = CMD_ID_COPY
            · rw [if_pos h3]
              by_cases h4 : til ≤ frm
              · rw [if_pos h4]
                exact ⟨h, rfl⟩
              · rw [if_neg h4]
                by_cases hfull : ctx.out.allocated ≤ ctx.out.used
                · rw [show GDUP ctx frm = none from by simp [GDUP, hfull]]
                  exact ⟨h, rfl⟩
                · have hG : GDUP ctx frm = some { ctx with out := { ctx.out with
                      glyphs := ctx.out.glyphs
                        ++ [ctx.inG.glyphs.getD frm default] } } := by
                    simp [GDUP, hfull]
                  simp only [hG]
                  constructor
                  · simp [MFLTGlyphString.used, UPDATE_CLUSTER_RANGE_out] at hfull ⊢
                    omega
                  · simp [UPDATE_CLUSTER_RANGE_out]
            · rw [if_neg h3]
              by_cases h5 : id = CMD_ID_CLUSTER_BEGIN
              · rw [if_pos h5]
                split <;> exact ⟨h, rfl⟩
              · rw [if_neg h5]
                by_cases h6 : id = CMD_ID_CLUSTER_END
                · rw [if_pos h6]
                  split
                  · constructor
                    · simp [MFLTGlyphString.used] at h ⊢
                      omega
                    · simp
                  · exact ⟨h, rfl⟩
                · rw [if_neg h6]
                  by_cases h7 : id = CMD_ID_SEPARATOR
                  · rw [if_pos h7]
                    by_cases hfull : ctx.out.allocated ≤ ctx.out.used
                    · rw [show GDUP ctx (if frm < til then frm else frm - 1) = none from by
                        simp [GDUP, hfull]]
                      exact ⟨h, rfl⟩
                    · have hG : ∀ j, GDUP ctx j = some { ctx with out := { ctx.out with
                          glyphs := ctx.out.glyphs
                            ++ [ctx.inG.glyphs.getD j default] } } := fun j => by
                        simp [GDUP, hfull]
                      simp only [hG]
                      constructor
                      · simp [MFLTGlyphString.used] at hfull ⊢
                        omega
                      · simp
                  · rw [if_neg h7]
                    by_cases h8 : id = CMD_ID_LEFT_PADDING
                    · rw [if_pos h8]
                      exact ⟨h, rfl⟩
                    · rw [if_neg h8]
                      by_cases h9 : id = CMD_ID_RIGHT_PADDING
                      · rw [if_pos h9]
                        split
                        · constructor
                          · simp [MFLTGlyphString.used] at h ⊢
                            omega
                          · simp
                        · exact ⟨h, rfl⟩
                      · rw [if_neg h9]
                        exact ⟨h, rfl⟩

/-- C2: no engine operation writes past the fixed output capacity: GDUP on a
full buffer returns the -2 signal (none) without touching the buffer, a
successful GDUP appends exactly one glyph and stays within (and never
changes) the capacity, GREPLACE returns the -2 signal when the splice would
exceed the capacity and otherwise stays within it, the OTF pass-through
returns -2 with the output untouched when the range does not fit, and every
run_command execution (any fuel, any command) keeps the output inside its
unchanged capacity, provided the adapter's drive_otf callback respects the
buffer protocol. -/
theorem C2_capacity_safety (env : FLTFontEnv) (hd : DriveOk env) :
    (∀ (ctx : FontLayoutContext) (idx : Nat),
        ctx.out.allocated ≤ ctx.out.used → GDUP ctx idx = none)
    ∧ (∀ (ctx : FontLayoutContext) (idx : Nat) (ctx2 : FontLayoutContext),
        GDUP ctx idx = some ctx2 →
        ctx2.out.glyphs = ctx.out.glyphs ++ [ctx.inG.glyphs.getD idx default]
        ∧ ctx2.out.used ≤ ctx2.out.allocated ∧ ctx2.out.allocated = ctx.out.allocated)
    ∧ (∀ (src : MFLTGlyphString) (sf st : Nat) (tgt : MFLTGlyphString) (tf tt : Nat),
        (tgt.allocated : Int)
            < (tgt.used : Int) + (((st : Int) - (sf : Int)) - ((tt : Int) - (tf : Int))) →
        GREPLACE src sf st tgt tf tt = none)
    ∧ (∀ (src : MFLTGlyphString) (sf st : Nat) (tgt : MFLTGlyphString) (tf tt : Nat)
        (res : MFLTGlyphString), GREPLACE src sf st tgt tf tt = some res →
        sf ≤ st → st ≤ src.used → tf ≤ tt → tt ≤ tgt.used →
        res.used ≤ res.allocated ∧ res.allocated = tgt.allocated)
    ∧ (∀ (spec : MFLTOtfSpec) (frm til : Nat) (ctx : FontLayoutContext),
        env.drive_otf = none →
        ctx.out.allocated < ctx.out.used + (til - frm) →
        (run_otf env spec frm til ctx).1 = -2
        ∧ (run_otf env spec frm til ctx).2.out = ctx.out)
    ∧ (∀ (fuel : Nat) (id : Int) (frm til : Nat) (ctx : FontLayoutContext),
        ctx.out.used ≤ ctx.out.allocated →
        (run_command env fuel id frm til ctx).2.out.used
            ≤ (run_command env fuel id frm til ctx).2.out.allocated
        ∧ (run_command env fuel id frm til ctx).2.out.allocated = ctx.out.allocated) := by
  refine ⟨?_, ?_, ?_, ?_, ?_, run_command_pres env hd⟩
  · intro ctx idx hfull
    simp [GDUP, hfull]
  · intro ctx idx ctx2 hdup
    unfold GDUP at hdup
    split at hdup
    · simp at hdup
    · simp only [Option.some.injEq] at hdup
      rw [← hdup]
      refine ⟨rfl, ?_, rfl⟩
      simp only [MFLTGlyphString.used, List.length_append, List.length_cons,
        List.length_nil] at *
      omega
  · intro src sf st tgt tf tt hcap
    unfold GREPLACE
    rw [if_pos hcap]
  · intro src sf st tgt tf tt res hrep hss hsu htt htu
    simp only [GREPLACE] at hrep
    split at hrep
    · simp at hrep
    · simp only [Option.some.injEq] at hrep
      rw [← hrep]
      constructor
      · simp only [MFLTGlyphString.used, List.length_append, List.length_take,
          List.length_drop] at *
        omega
      · rfl
  · intro spec frm til ctx hnone hcap
    unfold run_otf
    rw [hnone]
    simp only []
    rw [if_pos (by simpa using hcap)]
    exact ⟨rfl, rfl⟩

/-- Concrete context for the C2 witness: one input glyph, room for one
output glyph. -/
def c2WitnessCtx : FontLayoutContext :=
  { inG := { glyphs := [{ code := 4 }], allocated := 1 },
    out := { glyphs := [], allocated := 1 } }

/-- C2 witness: with the default environment (no OTF driver, so the adapter
contract holds vacuously), GDUP on a full buffer signals capacity and a copy
command on a context with room keeps the buffer within capacity. -/
theorem C2_capacity_safety_witness :
    GDUP { out := { glyphs := [{}], allocated := 1 } } 0 = none
    ∧ (run_command {} 1 CMD_ID_COPY 0 1 c2WitnessCtx).2.out.used
        ≤ (run_command {} 1 CMD_ID_COPY 0 1 c2WitnessCtx).2.out.allocated := by
  constructor
  · exact (C2_capacity_safety {} (fun d hdd => Option.noConfusion hdd)).1
      { out := { glyphs := [{}], allocated := 1 } } 0 (by decide)
  · exact ((C2_capacity_safety {} (fun d hdd => Option.noConfusion hdd)).2.2.2.2.2 1
      CMD_ID_COPY 0 1 c2WitnessCtx (by decide)).1
